import Mathlib

/-!
Verification of the request-dispatch subsystem of the monoklix dashboard
(file src/services/apiClient.ts and its evolved variant src/unnamed/part_002,
admission-control loop from src/unnamed/part_001).

The TypeScript code is shallowly embedded: the attempt-plan builder, the
de-duplication helper addAttempt, the credential-store accessors and the
dispatch executor loop become pure Lean functions; the stubbed transport is a
function from call index to a stubbed response; randomness (array shuffling)
is a function parameter constrained to produce a permutation of its input.
-/

namespace Monoklix

/-- JS String.prototype.slice(-n): the last n characters of a string
(the whole string when it is shorter), as a character list. -/
def lastChars (n : Nat) (s : String) : List Char :=
  (s.data.reverse.take n).reverse

/-- Does the character list s start with pat, literally. -/
def startsWithL : List Char → List Char → Bool
  | [], _ => true
  | _ :: _, [] => false
  | p :: ps, c :: cs => p = c && startsWithL ps cs

/-- Does s contain pat as a contiguous substring (JS String.prototype.includes). -/
def containsL : List Char → List Char → Bool
  | s, pat =>
    match s with
    | [] => pat.isEmpty
    | _ :: cs => startsWithL pat s || containsL cs pat

/-- JS includes on strings. -/
def strContains (s pat : String) : Bool := containsL s.data pat.data

/-- JS String.prototype.toLowerCase, restricted to the ASCII mapping the
classification markers need. -/
def lowerStr (s : String) : String := ⟨s.data.map Char.toLower⟩

/-- JS a || b for an optional string a: a JS falsy (absent or empty) string
falls through to b. -/
def jsOrStr : Option String → String → String
  | some s, d => if s = "" then d else s
  | none, d => d

/-- Provenance tag of an attempt (the source field of RequestAttempt). -/
inductive Source where
  | Specific
  | Personal
  | Pool
deriving DecidableEq, Repr

/-- interface RequestAttempt of src/unnamed/part_002. -/
structure RequestAttempt where
  token : String
  serverUrl : String
  source : Source
deriving DecidableEq, Repr

/-- One record of the shared pool: a token string and its creation
timestamp (modelled as the numeric value of new Date(createdAt).getTime()). -/
structure TokenRecord where
  token : String
  createdAt : Int
deriving DecidableEq, Repr

/-- The FALLBACK_SERVERS constant of src/unnamed/part_002. -/
def FALLBACK_SERVERS : List String :=
  ["https://s1.monoklix.com", "https://s2.monoklix.com", "https://s3.monoklix.com",
   "https://s4.monoklix.com", "https://s5.monoklix.com", "https://s6.monoklix.com",
   "https://s7.monoklix.com", "https://s8.monoklix.com", "https://s9.monoklix.com",
   "https://s10.monoklix.com"]

/-- State of the sessionStorage entry veoAuthTokens as seen after JSON.parse:
missing, unparseable (JSON.parse throws), parseable but not an array, or an
array of records. -/
inductive PoolStore where
  | corrupt
  | absent
  | nonArray
  | records (l : List TokenRecord)

/-- Comparator of src/unnamed/part_002 line 59: sort newest first
(b.createdAt - a.createdAt as a JS comparator puts larger createdAt first). -/
def newestFirst (a b : TokenRecord) : Bool := decide (b.createdAt ≤ a.createdAt)

/-- getSharedTokensFromSession of src/unnamed/part_002 lines 52-66: a corrupt,
absent or non-array store degrades to the empty list (the catch swallows the
parse failure); an array is sorted newest first. Totality of this Lean
function is the never-raises contract. -/
def getSharedTokensFromSession : PoolStore → List TokenRecord
  | .records l => l.mergeSort newestFirst
  | _ => []

/-- The de-duplication key of addAttempt (src/unnamed/part_002 line 118):
the template string of token.slice(-6), the at sign, and the server URL. -/
def attemptKey (a : RequestAttempt) : List Char :=
  lastChars 6 a.token ++ '@' :: a.serverUrl.data

/-- The builder state: the attempts array and the usedAttempts set of keys. -/
structure BuildState where
  attempts : List RequestAttempt
  used : List (List Char)

/-- addAttempt of src/unnamed/part_002 lines 117-123: push the attempt only
when its key is not yet in the used set. -/
def addAttempt (st : BuildState) (a : RequestAttempt) : BuildState :=
  if attemptKey a ∈ st.used then st
  else ⟨st.attempts ++ [a], attemptKey a :: st.used⟩

/-- Run a sequence of addAttempt calls from the empty state and read off the
attempts array. -/
def buildFrom (l : List RequestAttempt) : List RequestAttempt :=
  (l.foldl addAttempt ⟨[], []⟩).attempts

/-- The sequence of addAttempt calls made in strict mode
(src/unnamed/part_002 lines 125-132): the specific token on the current
server, then, unless the call is a health check, the 5 newest pool tokens on
the current server. -/
def requestedStrict (t : String) (isHC : Bool) (pool : List TokenRecord)
    (cur : String) : List RequestAttempt :=
  ⟨t, cur, .Specific⟩ ::
    (if isHC then [] else (pool.take 5).map fun r => ⟨r.token, cur, .Pool⟩)

/-- The strict-mode plan (scenario A of src/unnamed/part_002). -/
def buildStrictPlan (t : String) (isHC : Bool) (pool : List TokenRecord)
    (cur : String) : List RequestAttempt :=
  buildFrom (requestedStrict t isHC pool cur)

/-- The personal-token attempt on a given server, when a personal token exists. -/
def personalAttempts (personal : Option String) (srv : String) : List RequestAttempt :=
  match personal with
  | some p => [⟨p, srv, .Personal⟩]
  | none => []

/-- The sequence of addAttempt calls made in robust mode
(src/unnamed/part_002 lines 133-161): phase 1 is the personal token then the
shuffled pool on the current server; phase 2 repeats the personal token and
the first 3 shuffled pool tokens on each backup server. -/
def requestedRobust (personal : Option String) (shuffledPool : List TokenRecord)
    (cur : String) (backups : List String) : List RequestAttempt :=
  personalAttempts personal cur
    ++ shuffledPool.map (fun r => ⟨r.token, cur, .Pool⟩)
    ++ backups.flatMap (fun b =>
        personalAttempts personal b
          ++ (shuffledPool.take 3).map fun r => ⟨r.token, b, .Pool⟩)

/-- The robust-mode plan (scenario B of src/unnamed/part_002): the 10 newest
pool tokens are shuffled, and 2 backup servers are drawn from the fallback
list minus the current server. The shuffles are modelled as function
parameters; theorems constrain them to produce permutations, which is all a
JS sort with a random comparator guarantees. -/
def buildRobustPlan (shuffleT : List TokenRecord → List TokenRecord)
    (shuffleS : List String → List String) (personal : Option String)
    (store : PoolStore) (cur : String) : List RequestAttempt :=
  let pool := getSharedTokensFromSession store
  let shuffledPool := shuffleT (pool.take 10)
  let backups := (shuffleS (FALLBACK_SERVERS.filter fun s => decide (s ≠ cur))).take 2
  buildFrom (requestedRobust personal shuffledPool cur backups)

/-- The parsed JSON body of a proxy response, reduced to the fields the
dispatcher reads: data.error?.message, data.message, and whether the expected
result payload is present (which the dispatcher never reads). -/
structure ParsedData where
  errMsg : Option String
  topMsg : Option String
  hasResultPayload : Bool
deriving DecidableEq, Repr

/-- One stubbed transport outcome: fetch rejects with a message, or resolves
with a status and a body that either parses to data or is non-JSON. -/
inductive StubResponse where
  | fetchError (msg : String)
  | reply (status : Nat) (parsed : Option ParsedData)
deriving DecidableEq, Repr

/-- The synthesized body when JSON.parse of the response text fails
(src/unnamed/part_002 line 194). -/
def nonJsonData (status : Nat) : ParsedData :=
  ⟨some ("Proxy returned non-JSON (" ++ toString status ++ ")"), none, false⟩

/-- The extracted error message (src/unnamed/part_002 line 199):
data.error?.message || data.message || the generic status message. -/
def extractMsg (status : Nat) (d : ParsedData) : String :=
  jsOrStr d.errMsg (jsOrStr d.topMsg ("API call failed (" ++ toString status ++ ")"))

/-- Response.ok of the fetch API: status in the range 200-299. -/
def respOk (status : Nat) : Bool := decide (200 ≤ status) && decide (status < 300)

/-- The terminal classification inside the try block
(src/unnamed/part_002 line 202): status 400, or a lower-cased message
containing safety or blocked. -/
def terminalClass (status : Nat) (lowerMsg : String) : Bool :=
  decide (status = 400) || strContains lowerMsg "safety" || strContains lowerMsg "blocked"

/-- The re-throw test of the catch block (src/unnamed/part_002 line 218):
the message contains the substring 400, or its lower-casing contains safety. -/
def rethrowTerminal (msg : String) : Bool :=
  strContains msg "400" || strContains (lowerStr msg) "safety"

/-- Result of one dispatch: the outcome (error message or data plus the
successful token), the number of fetch calls made, and the number of
addLogEntry failure records emitted. -/
structure ExecResult where
  outcome : Except String (ParsedData × String)
  calls : Nat
  logRecords : Nat
deriving Repr

/-- The strategy loop of src/unnamed/part_002 lines 171-237, one step per
remaining attempt. strict is specificToken being present (it suppresses the
failure log record); i is the call index into the stubbed transport;
lastError is the lastError variable (set only inside the catch block). -/
def execGo (strict : Bool) (transport : Nat → StubResponse) :
    List RequestAttempt → Nat → String → ExecResult
  | [], _, lastError => ⟨.error lastError, 0, 0⟩
  | a :: rest, i, lastError =>
    let isLast := rest.isEmpty
    match transport i with
    | .fetchError msg =>
      if rethrowTerminal msg then ⟨.error msg, 1, 0⟩
      else if isLast then ⟨.error msg, 1, if strict then 0 else 1⟩
      else
        let r := execGo strict transport rest (i + 1) msg
        ⟨r.outcome, r.calls + 1, r.logRecords⟩
    | .reply status parsed =>
      let data := parsed.getD (nonJsonData status)
      if respOk status then ⟨.ok (data, a.token), 1, 0⟩
      else
        let errorMessage := extractMsg status data
        if terminalClass status (lowerStr errorMessage) || isLast then
          if rethrowTerminal errorMessage then ⟨.error errorMessage, 1, 0⟩
          else if isLast then ⟨.error errorMessage, 1, if strict then 0 else 1⟩
          else
            let r := execGo strict transport rest (i + 1) errorMessage
            ⟨r.outcome, r.calls + 1, r.logRecords⟩
        else
          let r := execGo strict transport rest (i + 1) lastError
          ⟨r.outcome, r.calls + 1, r.logRecords⟩

/-- The executor entered at the first attempt with the initial
lastError value of the source. -/
def execLoop (strict : Bool) (transport : Nat → StubResponse)
    (attempts : List RequestAttempt) : ExecResult :=
  execGo strict transport attempts 0 "Unknown error"

/-- The precondition error thrown when the plan is empty
(src/unnamed/part_002 line 164). -/
def noTokensMsg : String := "No authentication tokens found. Please claim a token in Settings."

/-- isHealthCheck detection (src/unnamed/part_002 line 101). -/
def isHealthCheckCtx (ctx : String) : Bool := strContains ctx "HEALTH CHECK"

/-- isGenerationRequest detection (src/unnamed/part_002 line 105). -/
def isGenerationCtx (ctx : String) : Bool :=
  strContains ctx "GENERATE" || strContains ctx "RECIPE"

/-- executeProxiedRequest of src/unnamed/part_002 after slot acquisition:
build the plan for the mode selected by specificToken, fail with the
precondition error on an empty plan before any network call, otherwise run
the strategy loop. -/
def dispatch (ctx : String) (specific personal : Option String) (store : PoolStore)
    (cur : String) (shuffleT : List TokenRecord → List TokenRecord)
    (shuffleS : List String → List String) (transport : Nat → StubResponse) :
    ExecResult :=
  let attempts := match specific with
    | some t => buildStrictPlan t (isHealthCheckCtx ctx) (getSharedTokensFromSession store) cur
    | none => buildRobustPlan shuffleT shuffleS personal store cur
  if attempts.isEmpty then ⟨.error noTokensMsg, 0, 0⟩
  else execLoop specific.isSome transport attempts

/-- One outcome of the remote request_generation_slot call: the rpc itself
errors, reports the slot denied, or reports it granted. -/
inductive SlotReply where
  | errored
  | granted
  | denied
deriving DecidableEq, Repr

/-- Result of the admission-control block: the slotAcquired flag, the number
of rpc calls made, and the number of 2000 ms backoff waits performed. -/
structure AdmissionResult where
  slotAcquired : Bool
  rpcCalls : Nat
  waits : Nat
deriving DecidableEq, Repr

/-- The bounded slot-acquisition loop of src/unnamed/part_001 lines 95-116:
up to 3 rpc calls; an rpc error sets slotAcquired and breaks at once (fail
open); a grant breaks; a denial waits one backoff interval and retries.
fuel counts the remaining loop iterations, i the rpc calls already made. -/
def slotGo (replies : Nat → SlotReply) : Nat → Nat → Nat → AdmissionResult
  | 0, i, waits => ⟨false, i, waits⟩
  | fuel + 1, i, waits =>
    match replies i with
    | .errored => ⟨true, i + 1, waits⟩
    | .granted => ⟨true, i + 1, waits⟩
    | .denied => slotGo replies fuel (i + 1) (waits + 1)

/-- The retry bound of the for loop (src/unnamed/part_001 line 97). -/
def slotRetryBound : Nat := 3

/-- The fixed backoff of one denial, in milliseconds (src/unnamed/part_001
line 114). -/
def slotBackoffMs : Nat := 2000

/-- The whole admission block for a generation-class request. -/
def requestSlot (replies : Nat → SlotReply) : AdmissionResult :=
  slotGo replies slotRetryBound 0 0

/-- A generation-class call: the admission block runs first (for a
generation context), and the dispatch then proceeds unconditionally — the
source never reads slotAcquired after the loop. -/
def executeGeneration (replies : Nat → SlotReply) (ctx : String)
    (specific personal : Option String) (store : PoolStore) (cur : String)
    (shuffleT : List TokenRecord → List TokenRecord)
    (shuffleS : List String → List String) (transport : Nat → StubResponse) :
    AdmissionResult × ExecResult :=
  let adm := if isGenerationCtx ctx then requestSlot replies else ⟨false, 0, 0⟩
  (adm, dispatch ctx specific personal store cur shuffleT shuffleS transport)

/-! ## Helper lemmas about the plan builder -/

/-- Folding addAttempt only appends, and what it appends is a sublist of the
requested attempts. -/
theorem foldl_addAttempt_sublist (l : List RequestAttempt) (st : BuildState) :
    ∃ ns, (l.foldl addAttempt st).attempts = st.attempts ++ ns ∧ ns.Sublist l := by
  induction l generalizing st with
  | nil => exact ⟨[], by simp, List.nil_sublist _⟩
  | cons a l ih =>
    rw [List.foldl_cons]
    by_cases h : attemptKey a ∈ st.used
    · obtain ⟨ns, h1, h2⟩ := ih (addAttempt st a)
      refine ⟨ns, ?_, h2.cons a⟩
      simpa [addAttempt, h] using h1
    · obtain ⟨ns, h1, h2⟩ := ih (addAttempt st a)
      refine ⟨a :: ns, ?_, h2.cons₂ a⟩
      rw [addAttempt, if_neg h] at h1 ⊢
      simpa [List.append_assoc] using h1

/-- Every attempt of a built plan is one of the requested attempts. -/
theorem buildFrom_subset (l : List RequestAttempt) : buildFrom l ⊆ l := by
  obtain ⟨ns, h1, h2⟩ := foldl_addAttempt_sublist l ⟨[], []⟩
  intro x hx
  rw [buildFrom, h1] at hx
  exact h2.subset (by simpa using hx)

/-- The invariant of the builder state: attempt keys are pairwise distinct
and every present key is in the used set. -/
def GoodState (st : BuildState) : Prop :=
  (st.attempts.map attemptKey).Nodup ∧ ∀ a ∈ st.attempts, attemptKey a ∈ st.used

theorem addAttempt_good (st : BuildState) (a : RequestAttempt) :
    GoodState st → GoodState (addAttempt st a) := by
  rintro ⟨h1, h2⟩
  by_cases h : attemptKey a ∈ st.used
  · simpa [addAttempt, h] using ⟨h1, h2⟩
  · rw [addAttempt, if_neg h]
    constructor
    · rw [List.map_append, List.nodup_append]
      refine ⟨h1, by simp, ?_⟩
      intro k hk hk2
      simp only [List.map_cons, List.map_nil, List.mem_singleton] at hk2
      obtain ⟨b, hb, hbk⟩ := List.mem_map.mp hk
      exact h (hk2 ▸ hbk ▸ h2 b hb)
    · intro b hb
      rcases List.mem_append.mp hb with hb | hb
      · exact List.mem_cons_of_mem _ (h2 b hb)
      · simp only [List.mem_singleton] at hb
        subst hb
        exact List.mem_cons_self _ _

theorem foldl_addAttempt_good (l : List RequestAttempt) (st : BuildState) :
    GoodState st → GoodState (l.foldl addAttempt st) := by
  induction l generalizing st with
  | nil => exact fun h => h
  | cons a l ih => exact fun h => ih (addAttempt st a) (addAttempt_good st a h)

/-- The built plan has pairwise distinct de-duplication keys. -/
theorem buildFrom_nodupKeys (l : List RequestAttempt) :
    ((buildFrom l).map attemptKey).Nodup :=
  (foldl_addAttempt_good l ⟨[], []⟩ ⟨by simp, by simp⟩).1

/-- No two positions of a plan carry the same credential fingerprint and
server. -/
def NoDupPairs (l : List RequestAttempt) : Prop :=
  l.Pairwise fun a b =>
    ¬(lastChars 6 a.token = lastChars 6 b.token ∧ a.serverUrl = b.serverUrl)

theorem buildFrom_noDupPairs (l : List RequestAttempt) : NoDupPairs (buildFrom l) := by
  have h := buildFrom_nodupKeys l
  rw [List.Nodup, List.pairwise_map] at h
  refine h.imp ?_
  intro a b hne hpair
  exact hne (by simp [attemptKey, hpair.1, hpair.2])

/-! ## Claim theorems -/

/-- Claim C3: every plan produced by the builder — strict or robust mode, any
credential-store and server-directory contents, any shuffling — never carries
the same (credential-fingerprint, server) pair at two distinct positions. -/
theorem plan_no_duplicate_pairs (t : String) (isHC : Bool)
    (pool : List TokenRecord) (cur : String)
    (shuffleT : List TokenRecord → List TokenRecord)
    (shuffleS : List String → List String) (personal : Option String)
    (store : PoolStore) :
    NoDupPairs (buildStrictPlan t isHC pool cur) ∧
    NoDupPairs (buildRobustPlan shuffleT shuffleS personal store cur) :=
  ⟨buildFrom_noDupPairs _, buildFrom_noDupPairs _⟩

/-- Claim C10: the de-duplication key is token.slice(-6) plus the server URL,
so a second credential whose final 6 characters coincide with an earlier one
on the same server is silently omitted from the plan. -/
theorem dedup_by_last6_and_server (t1 t2 s : String) (o1 o2 : Source)
    (hne : t1 ≠ t2) (hfp : lastChars 6 t1 = lastChars 6 t2) :
    buildFrom [⟨t1, s, o1⟩, ⟨t2, s, o2⟩] = [⟨t1, s, o1⟩] := by
  have hkey : attemptKey ⟨t2, s, o2⟩ = attemptKey ⟨t1, s, o1⟩ := by
    simp [attemptKey, hfp]
  simp [buildFrom, addAttempt, hkey]

/-- Witness for C10 at concrete distinct tokens sharing their last 6
characters. -/
theorem dedup_by_last6_and_server_witness :
    "aaabcdefg" ≠ "zzzbcdefg" ∧
    buildFrom [⟨"aaabcdefg", "s", .Pool⟩, ⟨"zzzbcdefg", "s", .Pool⟩]
      = [⟨"aaabcdefg", "s", .Pool⟩] :=
  ⟨by decide, dedup_by_last6_and_server _ _ _ _ _ (by decide) (by decide)⟩

/-- Claim C8: a strict-mode plan starts with exactly the caller-supplied
credential on the current server; a health check gets only that entry, any
other strict call gets at most 5 pool fallbacks, all on the current server. -/
theorem strict_plan_shape (t : String) (isHC : Bool) (pool : List TokenRecord)
    (cur : String) :
    (buildStrictPlan t isHC pool cur).head? = some ⟨t, cur, .Specific⟩ ∧
    (isHC = true → buildStrictPlan t isHC pool cur = [⟨t, cur, .Specific⟩]) ∧
    (isHC = false → ∃ tail,
      buildStrictPlan t isHC pool cur = ⟨t, cur, .Specific⟩ :: tail ∧
      tail.length ≤ 5 ∧ ∀ x ∈ tail, x.source = .Pool ∧ x.serverUrl = cur) := by
  have hfirst : List.foldl addAttempt ⟨[], []⟩ [(⟨t, cur, .Specific⟩ : RequestAttempt)]
      = ⟨[⟨t, cur, .Specific⟩], [attemptKey ⟨t, cur, .Specific⟩]⟩ := by
    simp [addAttempt]
  obtain ⟨ns, h1, h2⟩ := foldl_addAttempt_sublist
    (if isHC then [] else (pool.take 5).map fun r => ⟨r.token, cur, .Pool⟩)
    ⟨[⟨t, cur, .Specific⟩], [attemptKey ⟨t, cur, .Specific⟩]⟩
  have hplan : buildStrictPlan t isHC pool cur = ⟨t, cur, .Specific⟩ :: ns := by
    rw [buildStrictPlan, buildFrom, requestedStrict,
      show ((⟨t, cur, .Specific⟩ : RequestAttempt) ::
          (if isHC then [] else (pool.take 5).map fun r => ⟨r.token, cur, .Pool⟩))
        = [(⟨t, cur, .Specific⟩ : RequestAttempt)] ++
          (if isHC then [] else (pool.take 5).map fun r => ⟨r.token, cur, .Pool⟩)
        from rfl,
      List.foldl_append, hfirst]
    simpa using h1
  refine ⟨by rw [hplan]; rfl, ?_, ?_⟩
  · intro hc
    rw [hc] at h2
    simp only [if_pos rfl] at h2
    rw [hplan, List.sublist_nil.mp h2]
  · intro hc
    rw [hc] at h2
    simp only [if_neg Bool.false_ne_true] at h2
    refine ⟨ns, hplan, ?_, ?_⟩
    · calc ns.length ≤ ((pool.take 5).map fun r =>
            (⟨r.token, cur, .Pool⟩ : RequestAttempt)).length := h2.length_le
        _ ≤ 5 := by
          rw [List.length_map]
          exact List.length_take_le _ _
    · intro x hx
      have hx2 := h2.subset hx
      obtain ⟨r, _, hr⟩ := List.mem_map.mp hx2
      simp [← hr]

/-- Witness for C8: a health-check strict plan is exactly the supplied
credential on the current server. -/
theorem strict_plan_shape_witness :
    buildStrictPlan "tok123" true [⟨"pooltok", 7⟩] "srv"
      = [⟨"tok123", "srv", .Specific⟩] :=
  (strict_plan_shape "tok123" true [⟨"pooltok", 7⟩] "srv").2.1 rfl

/-- Claim C5 (amended): on any attempt whose response has a 2xx status the
executor stops and returns success with the parsed body and that attempt
token at once — it never inspects the result payload and never advances. -/
theorem ok_response_returns_success (strict : Bool)
    (transport : Nat → StubResponse) (a : RequestAttempt)
    (rest : List RequestAttempt) (status : Nat) (parsed : Option ParsedData)
    (h : transport 0 = .reply status parsed) (hok : respOk status = true) :
    execLoop strict transport (a :: rest)
      = ⟨.ok (parsed.getD (nonJsonData status), a.token), 1, 0⟩ := by
  unfold execLoop execGo
  rw [h]
  simp [hok]

/-- Witness for the amended C5. -/
theorem ok_response_returns_success_witness :
    execLoop false (fun _ => .reply 200 (some ⟨none, none, true⟩))
      [⟨"tA", "s", .Pool⟩, ⟨"tB", "s", .Pool⟩]
      = ⟨.ok (⟨none, none, true⟩, "tA"), 1, 0⟩ :=
  ok_response_returns_success false _ _ _ 200 (some ⟨none, none, true⟩) rfl rfl

/-- Counterexample to C5 as stated: the first response is 2xx with the
expected result payload absent (hasResultPayload is false), yet the executor
returns success with that body after exactly one call instead of treating the
attempt as a retryable failure and advancing to the second pair. -/
theorem success_without_payload_counterexample :
    (⟨none, none, false⟩ : ParsedData).hasResultPayload = false ∧
    execLoop false (fun _ => .reply 200 (some ⟨none, none, false⟩))
      [⟨"tA", "s", .Pool⟩, ⟨"tB", "s", .Pool⟩]
      = ⟨.ok (⟨none, none, false⟩, "tA"), 1, 0⟩ :=
  ⟨rfl, rfl⟩

/-- Claim C1, evaluated at the failing input: the first response of a 3-entry
plan is HTTP 400 and the try block classifies it terminal (terminalClass is
true), but the catch block re-throw test looks only for the substrings 400
and safety in the message, so the loop continues: all 3 network calls are
made and the final error is the one of the last attempt, where the claim
demands exactly one call and propagation of the 400 error. -/
theorem http400_with_plain_message_is_retried :
    terminalClass 400 (lowerStr "Invalid prompt content") = true ∧
    rethrowTerminal "Invalid prompt content" = false ∧
    execLoop false
      (fun i => if i = 0 then .reply 400 (some ⟨some "Invalid prompt content", none, false⟩)
                else .reply 500 (some ⟨some "server error", none, false⟩))
      [⟨"t1", "s1", .Pool⟩, ⟨"t2", "s1", .Pool⟩, ⟨"t3", "s1", .Pool⟩]
      = ⟨.error "server error", 3, 1⟩ :=
  ⟨rfl, rfl, rfl⟩

/-- A stubbed outcome that the executor classifies retryable on a non-final
attempt and whose message survives the catch-block re-throw test: a transport
failure, or a non-2xx non-terminal reply, whose extracted message contains
neither the substring 400 nor a case-insensitive safety marker. -/
def RetryableStub : StubResponse → Prop
  | .fetchError msg => rethrowTerminal msg = false
  | .reply status parsed =>
      respOk status = false ∧
      terminalClass status
        (lowerStr (extractMsg status (parsed.getD (nonJsonData status)))) = false ∧
      rethrowTerminal (extractMsg status (parsed.getD (nonJsonData status))) = false

/-- The error message the executor extracts from a stubbed outcome. -/
def stubMsg : StubResponse → String
  | .fetchError msg => msg
  | .reply status parsed => extractMsg status (parsed.getD (nonJsonData status))

theorem execGo_all_retryable (strict : Bool) (transport : Nat → StubResponse) :
    ∀ (rest : List RequestAttempt) (a : RequestAttempt) (i : Nat) (le : String),
    (∀ j, j ≤ rest.length → RetryableStub (transport (i + j))) →
    execGo strict transport (a :: rest) i le =
      ⟨.error (stubMsg (transport (i + rest.length))), rest.length + 1,
        if strict then 0 else 1⟩ := by
  intro rest
  induction rest with
  | nil =>
    intro a i le hall
    have h0 : RetryableStub (transport i) := by simpa using hall 0 (by simp)
    cases hr : transport i with
    | fetchError msg =>
      rw [hr] at h0
      simp only [RetryableStub] at h0
      simp [execGo, hr, h0, stubMsg]
    | reply status parsed =>
      rw [hr] at h0
      obtain ⟨hok, hterm, hre⟩ := h0
      simp [execGo, hr, hok, hterm, hre, stubMsg]
  | cons b rest2 ih =>
    intro a i le hall
    have h0 : RetryableStub (transport i) := by simpa using hall 0 (by simp)
    have hall2 : ∀ j, j ≤ rest2.length → RetryableStub (transport (i + 1 + j)) := by
      intro j hj
      have := hall (j + 1) (by simpa using Nat.succ_le_succ hj)
      simpa [Nat.add_assoc, Nat.add_comm 1 j] using this
    have hidx : i + 1 + rest2.length = i + rest2.length + 1 := by omega
    cases hr : transport i with
    | fetchError msg =>
      rw [hr] at h0
      simp only [RetryableStub] at h0
      have hih := ih b (i + 1) msg hall2
      rw [hidx] at hih
      rw [execGo, hr]
      simp [h0, hih, Nat.add_assoc]
    | reply status parsed =>
      rw [hr] at h0
      obtain ⟨hok, hterm, hre⟩ := h0
      have hih := ih b (i + 1) le hall2
      rw [hidx] at hih
      rw [execGo, hr]
      simp [hok, hterm, hre, hih, Nat.add_assoc]

/-- Claim C4 (amended): when every attempt of a non-empty plan fails
retryably and no extracted error message contains the substring 400 or a
case-insensitive safety marker, the dispatch makes exactly one network call
per plan entry, fails with the message of the last attempt, and emits exactly
one failure log record — and that record only when no specific credential was
supplied. -/
theorem exhausted_all_retryable (specific : Option String)
    (transport : Nat → StubResponse) (attempts : List RequestAttempt)
    (hne : attempts ≠ [])
    (hall : ∀ j, j < attempts.length → RetryableStub (transport j)) :
    execLoop specific.isSome transport attempts =
      ⟨.error (stubMsg (transport (attempts.length - 1))), attempts.length,
        if specific.isSome then 0 else 1⟩ := by
  cases attempts with
  | nil => exact absurd rfl hne
  | cons a rest =>
    have hall2 : ∀ j, j ≤ rest.length → RetryableStub (transport (0 + j)) := by
      intro j hj
      rw [Nat.zero_add]
      exact hall j (by simpa using Nat.lt_succ_of_le hj)
    have h := execGo_all_retryable specific.isSome transport rest a 0
      "Unknown error" hall2
    simpa [execLoop, Nat.zero_add] using h

/-- Witness for the amended C4: two 429 responses, non-strict call — two
calls, the last message, one failure record. -/
theorem exhausted_all_retryable_witness :
    execLoop false (fun _ => .reply 429 (some ⟨some "quota", none, false⟩))
      [⟨"tokA", "srv", .Pool⟩, ⟨"tokB", "srv", .Pool⟩]
      = ⟨.error "quota", 2, 1⟩ := by
  have h := exhausted_all_retryable none
    (fun _ => .reply 429 (some ⟨some "quota", none, false⟩))
    [⟨"tokA", "srv", .Pool⟩, ⟨"tokB", "srv", .Pool⟩]
    (by simp) (fun j _ => ⟨rfl, rfl, rfl⟩)
  simpa using h

/-- Counterexample to C4 as stated: a single-entry non-strict plan whose only
response is a 429 the loop itself classifies retryable, whose message happens
to contain the substring 400 — the call fails after exactly one attempt with
that message, but the logging collaborator receives zero failure records
where the claim demands exactly one. -/
theorem exhausted_log_skipped_counterexample :
    respOk 429 = false ∧
    terminalClass 429 (lowerStr "Retry after 400 s") = false ∧
    execLoop false (fun _ => .reply 429 (some ⟨some "Retry after 400 s", none, false⟩))
      [⟨"tokA", "srv", .Pool⟩]
      = ⟨.error "Retry after 400 s", 1, 0⟩ :=
  ⟨rfl, rfl, rfl⟩

theorem flatMap_nil_of_forall {α β : Type} (l : List α) (f : α → List β)
    (h : ∀ x ∈ l, f x = []) : l.flatMap f = [] := by
  induction l with
  | nil => rfl
  | cons a l ih =>
    rw [List.flatMap_cons, h a (List.mem_cons_self a l),
      ih fun x hx => h x (List.mem_cons_of_mem a hx)]
    rfl

/-- Claim C6: with no personal token, no pool tokens and no specific token,
the dispatch fails with the distinct no-credentials precondition error and
performs zero network calls. -/
theorem no_credentials_precondition (ctx : String) (store : PoolStore)
    (cur : String) (shuffleT : List TokenRecord → List TokenRecord)
    (shuffleS : List String → List String) (transport : Nat → StubResponse)
    (hT : ∀ m, (shuffleT m).Perm m) (hstore : getSharedTokensFromSession store = []) :
    dispatch ctx none none store cur shuffleT shuffleS transport
      = ⟨.error noTokensMsg, 0, 0⟩ := by
  have hsp : shuffleT ((getSharedTokensFromSession store).take 10) = [] := by
    rw [hstore]
    exact (hT []).eq_nil
  have hreq : ∀ bks, requestedRobust none
      (shuffleT ((getSharedTokensFromSession store).take 10)) cur bks = [] := by
    intro bks
    rw [hsp, requestedRobust]
    simp only [personalAttempts, List.map_nil, List.nil_append, List.take_nil]
    exact flatMap_nil_of_forall bks _ fun x _ => rfl
  rw [dispatch, buildRobustPlan]
  simp only [hreq]
  rfl

/-- Witness for C6: a corrupt pool store, no personal token, no specific
token. -/
theorem no_credentials_precondition_witness :
    dispatch "GENERATE VIDEO" none none .corrupt "https://veox.monoklix.com"
      id id (fun _ => .fetchError "network down")
      = ⟨.error noTokensMsg, 0, 0⟩ :=
  no_credentials_precondition _ _ _ _ _ _ (fun m => List.Perm.refl m) rfl

/-- Claim C7: the admission controller is advisory: it makes at most 3 rpc
calls and at most 3 backoff waits; an rpc error ends it at once with a single
call and no waiting (fail open); an always-denied service exhausts the 3
calls and 3 waits and still ends; and the dispatch outcome of a
generation-class call never depends on the slot replies. -/
theorem admission_fail_open :
    (∀ replies, (requestSlot replies).rpcCalls ≤ 3 ∧ (requestSlot replies).waits ≤ 3) ∧
    (∀ replies, replies 0 = .errored → requestSlot replies = ⟨true, 1, 0⟩) ∧
    (∀ replies, (∀ i, replies i = .denied) → requestSlot replies = ⟨false, 3, 3⟩) ∧
    (∀ replies replies2 ctx specific personal store cur shuffleT shuffleS transport,
      (executeGeneration replies ctx specific personal store cur
          shuffleT shuffleS transport).2 =
        (executeGeneration replies2 ctx specific personal store cur
          shuffleT shuffleS transport).2) := by
  refine ⟨?_, ?_, ?_, ?_⟩
  · intro replies
    show (slotGo replies 3 0 0).rpcCalls ≤ 3 ∧ (slotGo replies 3 0 0).waits ≤ 3
    cases h0 : replies 0 <;> cases h1 : replies 1 <;> cases h2 : replies 2 <;>
      simp [slotGo, h0, h1, h2]
  · intro replies h0
    show slotGo replies 3 0 0 = ⟨true, 1, 0⟩
    simp [slotGo, h0]
  · intro replies hd
    show slotGo replies 3 0 0 = ⟨false, 3, 3⟩
    simp [slotGo, hd 0, hd 1, hd 2]
  · intro replies replies2 ctx specific personal store cur shuffleT shuffleS transport
    rfl

/-- Witness for C7: an always-erroring slot service yields one call and no
wait; an always-denying one stops after 3 calls and 3 waits. -/
theorem admission_fail_open_witness :
    requestSlot (fun _ => .errored) = ⟨true, 1, 0⟩ ∧
    requestSlot (fun _ => .denied) = ⟨false, 3, 3⟩ :=
  ⟨admission_fail_open.2.1 _ rfl, admission_fail_open.2.2.1 _ (fun _ => rfl)⟩

theorem personalAttempts_source (pers : Option String) (srv : String)
    (x : RequestAttempt) (h : x ∈ personalAttempts pers srv) :
    x.source = .Personal := by
  cases pers with
  | none => simp [personalAttempts] at h
  | some q =>
    simp [personalAttempts] at h
    rw [h]

/-- Claim C2: a robust-mode plan with a personal credential and a non-empty
pool starts with the personal credential on the current server (hence before
any pool entry there), and splits as current-server attempts followed by
attempts on servers different from the current one. -/
theorem robust_plan_order (shuffleT : List TokenRecord → List TokenRecord)
    (shuffleS : List String → List String) (p cur : String) (store : PoolStore)
    (hS : ∀ m, (shuffleS m).Perm m)
    (hpool : getSharedTokensFromSession store ≠ []) :
    (buildRobustPlan shuffleT shuffleS (some p) store cur).head?
        = some ⟨p, cur, .Personal⟩ ∧
    ∃ A B, buildRobustPlan shuffleT shuffleS (some p) store cur = A ++ B ∧
      (∀ x ∈ A, x.serverUrl = cur) ∧ (∀ x ∈ B, x.serverUrl ≠ cur) := by
  have key : ∀ (spl : List TokenRecord) (bl : List String), (∀ b ∈ bl, b ≠ cur) →
      (buildFrom (requestedRobust (some p) spl cur bl)).head?
          = some ⟨p, cur, .Personal⟩ ∧
      ∃ A B, buildFrom (requestedRobust (some p) spl cur bl) = A ++ B ∧
        (∀ x ∈ A, x.serverUrl = cur) ∧ (∀ x ∈ B, x.serverUrl ≠ cur) := by
    intro spl bl hbl
    have hP : requestedRobust (some p) spl cur bl
        = ((⟨p, cur, .Personal⟩ :: spl.map fun r => ⟨r.token, cur, .Pool⟩) :
            List RequestAttempt)
          ++ bl.flatMap (fun b => personalAttempts (some p) b
              ++ (spl.take 3).map fun r => ⟨r.token, b, .Pool⟩) := by
      simp [requestedRobust, personalAttempts]
    have hstep : List.foldl addAttempt ⟨[], []⟩
        ((⟨p, cur, .Personal⟩ : RequestAttempt) :: spl.map fun r => ⟨r.token, cur, .Pool⟩)
        = List.foldl addAttempt
            ⟨[⟨p, cur, .Personal⟩], [attemptKey ⟨p, cur, .Personal⟩]⟩
            (spl.map fun r => ⟨r.token, cur, .Pool⟩) := by
      rw [List.foldl_cons]
      congr 1
    obtain ⟨ns1, h1, hsub1⟩ := foldl_addAttempt_sublist
      (spl.map fun r => ⟨r.token, cur, .Pool⟩)
      ⟨[⟨p, cur, .Personal⟩], [attemptKey ⟨p, cur, .Personal⟩]⟩
    obtain ⟨ns2, h2, hsub2⟩ := foldl_addAttempt_sublist
      (bl.flatMap fun b => personalAttempts (some p) b
          ++ (spl.take 3).map fun r => ⟨r.token, b, .Pool⟩)
      (List.foldl addAttempt
        ⟨[⟨p, cur, .Personal⟩], [attemptKey ⟨p, cur, .Personal⟩]⟩
        (spl.map fun r => ⟨r.token, cur, .Pool⟩))
    rw [buildFrom, hP, List.foldl_append, hstep, h2, h1]
    refine ⟨by simp, ⟨⟨p, cur, .Personal⟩ :: ns1, ns2, by simp, ?_, ?_⟩⟩
    · intro x hx
      rcases List.mem_cons.mp hx with hx | hx
      · rw [hx]
      · obtain ⟨r, _, hr⟩ := List.mem_map.mp (hsub1.subset hx)
        rw [← hr]
    · intro x hx
      obtain ⟨b, hb, hxb⟩ := List.mem_flatMap.mp (hsub2.subset hx)
      have hsrv : x.serverUrl = b := by
        rcases List.mem_append.mp hxb with h | h
        · simp [personalAttempts] at h
          rw [h]
        · obtain ⟨r, _, hr⟩ := List.mem_map.mp h
          rw [← hr]
      rw [hsrv]
      exact hbl b hb
  have hbks : ∀ b ∈ (shuffleS (FALLBACK_SERVERS.filter fun s =>
      decide (s ≠ cur))).take 2, b ≠ cur := by
    intro b hb
    have hb2 : b ∈ shuffleS (FALLBACK_SERVERS.filter fun s => decide (s ≠ cur)) :=
      List.take_subset _ _ hb
    have hb3 : b ∈ FALLBACK_SERVERS.filter fun s => decide (s ≠ cur) :=
      ((hS _).mem_iff).mp hb2
    exact of_decide_eq_true (List.mem_filter.mp hb3).2
  exact key (shuffleT ((getSharedTokensFromSession store).take 10))
    ((shuffleS (FALLBACK_SERVERS.filter fun s => decide (s ≠ cur))).take 2) hbks

/-- Witness for C2 at a one-token pool, identity shuffles and the default veo
server. -/
theorem robust_plan_order_witness :
    (buildRobustPlan id id (some "persontok") (.records [⟨"pooltok", 5⟩])
        "https://veox.monoklix.com").head?
      = some ⟨"persontok", "https://veox.monoklix.com", .Personal⟩ ∧
    ∃ A B, buildRobustPlan id id (some "persontok") (.records [⟨"pooltok", 5⟩])
        "https://veox.monoklix.com" = A ++ B ∧
      (∀ x ∈ A, x.serverUrl = "https://veox.monoklix.com") ∧
      (∀ x ∈ B, x.serverUrl ≠ "https://veox.monoklix.com") :=
  robust_plan_order id id "persontok" "https://veox.monoklix.com"
    (.records [⟨"pooltok", 5⟩]) (fun m => List.Perm.refl m)
    (by
      intro h
      have hp := List.mergeSort_perm [(⟨"pooltok", 5⟩ : TokenRecord)] newestFirst
      rw [show getSharedTokensFromSession (.records [⟨"pooltok", 5⟩])
          = [(⟨"pooltok", 5⟩ : TokenRecord)].mergeSort newestFirst from rfl] at h
      rw [h] at hp
      simpa using hp.length_eq)

/-- Claim C9: the pool accessor never raises (it is total) and degrades a
corrupt, absent or non-array store to the empty list; on a parsed array it
returns a permutation of the records sorted newest-first by creation
timestamp; and every pool token a robust plan uses comes from the 10 newest
entries of the accessor output. -/
theorem pool_accessor_safe_sorted :
    (getSharedTokensFromSession .corrupt = [] ∧
     getSharedTokensFromSession .absent = [] ∧
     getSharedTokensFromSession .nonArray = []) ∧
    (∀ l, (getSharedTokensFromSession (.records l)).Perm l) ∧
    (∀ l, List.Sorted (fun a b : TokenRecord => b.createdAt ≤ a.createdAt)
        (getSharedTokensFromSession (.records l))) ∧
    (∀ (shuffleT : List TokenRecord → List TokenRecord)
      (shuffleS : List String → List String) (personal : Option String)
      (store : PoolStore) (cur : String),
      (∀ m, (shuffleT m).Perm m) →
      ∀ x ∈ buildRobustPlan shuffleT shuffleS personal store cur,
        x.source = .Pool →
        x.token ∈ ((getSharedTokensFromSession store).take 10).map fun r => r.token) := by
  refine ⟨⟨rfl, rfl, rfl⟩, fun l => List.mergeSort_perm l newestFirst, ?_, ?_⟩
  · intro l
    have htrans : ∀ a b c : TokenRecord, newestFirst a b = true →
        newestFirst b c = true → newestFirst a c = true := by
      intro a b c h1 h2
      simp only [newestFirst, decide_eq_true_eq] at h1 h2 ⊢
      omega
    have htotal : ∀ a b : TokenRecord, (newestFirst a b || newestFirst b a) = true := by
      intro a b
      simp only [newestFirst, Bool.or_eq_true, decide_eq_true_eq]
      omega
    have hs := List.sorted_mergeSort htrans htotal l
    exact hs.imp fun h => by
      simpa [newestFirst, decide_eq_true_eq] using h
  · intro shuffleT shuffleS personal store cur hT x hx hsrc
    rw [show buildRobustPlan shuffleT shuffleS personal store cur
        = buildFrom (requestedRobust personal
            (shuffleT ((getSharedTokensFromSession store).take 10)) cur
            ((shuffleS (FALLBACK_SERVERS.filter fun s => decide (s ≠ cur))).take 2))
        from rfl] at hx
    have hx2 := buildFrom_subset _ hx
    rw [requestedRobust] at hx2
    rcases List.mem_append.mp hx2 with hx3 | hx3
    · rcases List.mem_append.mp hx3 with hx4 | hx4
      · rw [personalAttempts_source _ _ _ hx4] at hsrc
        exact absurd hsrc (by simp)
      · obtain ⟨r, hr, hrx⟩ := List.mem_map.mp hx4
        have hr2 : r ∈ (getSharedTokensFromSession store).take 10 :=
          ((hT _).mem_iff).mp hr
        exact List.mem_map.mpr ⟨r, hr2, by rw [← hrx]⟩
    · obtain ⟨b, _, hxb⟩ := List.mem_flatMap.mp hx3
      rcases List.mem_append.mp hxb with hx4 | hx4
      · rw [personalAttempts_source _ _ _ hx4] at hsrc
        exact absurd hsrc (by simp)
      · obtain ⟨r, hr, hrx⟩ := List.mem_map.mp hx4
        have hr1 : r ∈ shuffleT ((getSharedTokensFromSession store).take 10) :=
          List.take_subset _ _ hr
        have hr2 : r ∈ (getSharedTokensFromSession store).take 10 :=
          ((hT _).mem_iff).mp hr1
        exact List.mem_map.mpr ⟨r, hr2, by rw [← hrx]⟩

/-- Witness for C9 at a corrupt store and at a one-record store with the
identity shuffle. -/
theorem pool_accessor_safe_sorted_witness :
    getSharedTokensFromSession .corrupt = [] ∧
    (getSharedTokensFromSession (.records [⟨"tokA", 3⟩])).Perm [⟨"tokA", 3⟩] ∧
    (∀ x ∈ buildRobustPlan id id none (.records [⟨"tokA", 3⟩]) "cur",
      x.source = .Pool →
      x.token ∈ ((getSharedTokensFromSession (.records [⟨"tokA", 3⟩])).take 10).map
        fun r => r.token) :=
  ⟨pool_accessor_safe_sorted.1.1,
   pool_accessor_safe_sorted.2.1 _,
   fun x hx hs => pool_accessor_safe_sorted.2.2.2 id id none
     (.records [⟨"tokA", 3⟩]) "cur" (fun m => List.Perm.refl m) x hx hs⟩

end Monoklix

